import Mathlib

/-!
Verification of the knowledge-mcp catalog/index subsystem.

Shallow embedding of the Go sources: `models/atom.go` (current revision with
YAML tags), `storage/atom.go` (dual-encoding revision), `storage/index.go`,
`tools/search.go`, `tools/upsert.go`, `tools/atoms.go` and `config`.

Strings are modelled through their character lists; `strings.Contains`,
`strings.HasPrefix` and `strings.ToLower` are reproduced over `List Char`
(the repository only manipulates ASCII identifiers and tags, where Go's
byte-level operations agree with the character-level ones).

Go maps with `int` values yield the zero value on a missing key; the
priority tables below bake that default in.  Go `nil` slices and pointers
are modelled as `Option`.  The filesystem is modelled as two association
lists (one per on-disk encoding) keyed by atom ID; every operation keeps
keys unique, matching the uniqueness of file paths.
-/

/-- One step of substring search: does `sub` occur inside the list? Models
Go `strings.Contains` on the underlying characters. -/
def listHasSubstr (sub : List Char) : List Char → Bool
  | [] => sub.isEmpty
  | c :: t => sub.isPrefixOf (c :: t) || listHasSubstr sub t

/-- Go `strings.Contains s sub`. -/
def strContainsSub (s sub : String) : Bool :=
  listHasSubstr sub.data s.data

/-- Go `strings.HasPrefix s pre`. -/
def strHasPref (s pre : String) : Bool :=
  pre.data.isPrefixOf s.data

/-- Go `strings.ToLower` (ASCII-faithful). -/
def lowerStr (s : String) : String :=
  ⟨s.data.map Char.toLower⟩

/-- models.Source. -/
structure Source where
  kind : String
  ref : String
deriving DecidableEq

/-- models.Link. -/
structure Link where
  rel : String
  id : String
deriving DecidableEq

/-- models.UpdateNote. -/
structure UpdateNote where
  date : String
  note : String
deriving DecidableEq

/-- models.AtomContent. -/
structure AtomContent where
  summary : String
  details : String
  pitfalls : List String
  updateNotes : List UpdateNote
deriving DecidableEq

/-- models.Atom.  The Go enum fields are typed strings (`AtomType`,
`AtomStatus`, `Confidence`); validity is a separate check, so they are
plain strings here. -/
structure Atom where
  id : String
  title : String
  type : String
  status : String
  confidence : String
  content : AtomContent
  language : Option String
  createdAt : String
  updatedAt : String
  tags : List String
  sources : List Source
  links : List Link
  supersedes : List String
  supersededBy : Option String
deriving DecidableEq

/-- models.IndexEntry. -/
structure IndexEntry where
  id : String
  title : String
  type : String
  status : String
  confidence : String
  language : Option String
  tags : List String
  path : String
  updatedAt : String
deriving DecidableEq

/-- models.Index (the Catalog). -/
structure Index where
  version : Nat
  updatedAt : String
  atoms : List IndexEntry
deriving DecidableEq

/-- models.ValidAtomTypes. -/
def validAtomTypes : List String :=
  ["fact", "decision", "procedure", "pattern", "gotcha", "glossary", "snippet"]

/-- models.AtomType.IsValid. -/
def isValidType (t : String) : Bool :=
  validAtomTypes.any (fun v => decide (t = v))

/-- models.ValidAtomStatuses. -/
def validAtomStatuses : List String :=
  ["active", "draft", "deprecated"]

/-- models.AtomStatus.IsValid. -/
def isValidStatus (s : String) : Bool :=
  validAtomStatuses.any (fun v => decide (s = v))

/-- models.ValidConfidences. -/
def validConfidences : List String :=
  ["high", "medium", "low"]

/-- models.Confidence.IsValid. -/
def isValidConfidence (c : String) : Bool :=
  validConfidences.any (fun v => decide (c = v))

/-- tools.statusPriority (Go map; missing keys give 0). -/
def statusPriority (s : String) : Nat :=
  if s = "active" then 3 else if s = "draft" then 2 else if s = "deprecated" then 1 else 0

/-- tools.confidencePriority (Go map; missing keys give 0). -/
def confidencePriority (c : String) : Nat :=
  if c = "high" then 3 else if c = "medium" then 2 else if c = "low" then 1 else 0

/-- models.NewIndexEntryFromAtom (current revision: the path points at the
canonical `.yaml` file). -/
def entryFromAtom (a : Atom) : IndexEntry :=
  { id := a.id
    title := a.title
    type := a.type
    status := a.status
    confidence := a.confidence
    language := a.language
    tags := a.tags
    path := "atoms/" ++ a.id ++ ".yaml"
    updatedAt := a.updatedAt }

/-- The atoms directory: one association list per encoding, keyed by atom
ID (the file `atoms/<id>.<ext>` holds the decoded atom). -/
structure FileStore where
  yaml : List (String × Atom)
  json : List (String × Atom)
deriving DecidableEq

/-- Read the file for a key, if present. -/
def lookupKey (l : List (String × Atom)) (k : String) : Option Atom :=
  (l.find? (fun p => decide (p.1 = k))).map (fun p => p.2)

/-- Remove the file for a key (no-op when absent). -/
def eraseKey (l : List (String × Atom)) (k : String) : List (String × Atom) :=
  l.filter (fun p => decide (p.1 ≠ k))

/-- Overwrite (or create) the file for a key. -/
def setKey (l : List (String × Atom)) (k : String) (a : Atom) : List (String × Atom) :=
  eraseKey l k ++ [(k, a)]

/-- storage.AtomStorage.Load: canonical (YAML) first, then legacy JSON,
`none` when neither file exists. -/
def loadAtom (st : FileStore) (id : String) : Option Atom :=
  match lookupKey st.yaml id with
  | some a => some a
  | none => lookupKey st.json id

/-- storage.AtomStorage.Save: write the canonical YAML file, then delete a
legacy JSON file for the same ID if one exists. -/
def saveAtom (st : FileStore) (a : Atom) : FileStore :=
  { yaml := setKey st.yaml a.id a
    json := eraseKey st.json a.id }

/-- storage.AtomStorage.Delete: remove whichever encodings exist, report
whether anything existed. -/
def deleteAtomFiles (st : FileStore) (id : String) : FileStore × Bool :=
  let existed := (lookupKey st.yaml id).isSome || (lookupKey st.json id).isSome
  (⟨eraseKey st.yaml id, eraseKey st.json id⟩, existed)

/-- storage.AtomStorage.Exists: either encoding present. -/
def existsAtom (st : FileStore) (id : String) : Bool :=
  (lookupKey st.yaml id).isSome || (lookupKey st.json id).isSome

/-- models.Index.AddOrUpdate, replacement half: replace the first entry
whose ID matches, or report `none`. -/
def replaceFirst (e : IndexEntry) : List IndexEntry → Option (List IndexEntry)
  | [] => none
  | x :: rest =>
    if x.id = e.id then some (e :: rest)
    else (replaceFirst e rest).map (fun l => x :: l)

/-- models.Index.AddOrUpdate: replace in place or append; bump the
catalog timestamp (`now` stands for `time.Now()`). -/
def addOrUpdateEntry (idx : Index) (e : IndexEntry) (now : String) : Index :=
  match replaceFirst e idx.atoms with
  | some l => { idx with atoms := l, updatedAt := now }
  | none => { idx with atoms := idx.atoms ++ [e], updatedAt := now }

/-- models.Index.Remove, removal half: drop the first entry with the ID. -/
def removeFirst (id : String) : List IndexEntry → Option (List IndexEntry)
  | [] => none
  | x :: rest =>
    if x.id = id then some rest
    else (removeFirst id rest).map (fun l => x :: l)

/-- models.Index.Remove: compact out the first matching entry, report
whether a removal happened. -/
def removeEntry (idx : Index) (id : String) (now : String) : Index × Bool :=
  match removeFirst id idx.atoms with
  | some l => ({ idx with atoms := l, updatedAt := now }, true)
  | none => (idx, false)

/-- models.Index.FindByID: linear scan. -/
def findByID (idx : Index) (id : String) : Option IndexEntry :=
  idx.atoms.find? (fun e => decide (e.id = id))

/-- Value of a non-empty digit run (used by the `%d` verb model). -/
def digitsVal (l : List Char) : Option Nat :=
  let ds := l.takeWhile Char.isDigit
  if ds.isEmpty then none
  else some (ds.foldl (fun acc c => acc * 10 + (c.toNat - 48)) 0)

/-- Model of `fmt.Sscanf(id, "K-%d", &num)`: the literal `K-` must match,
then `%d` reads an optionally signed digit run; any trailing characters
are left unconsumed (the format is already exhausted, so `n = 1`). -/
def parseKNum (s : String) : Option Int :=
  match s.data with
  | 'K' :: '-' :: rest =>
    match rest with
    | '-' :: r => (digitsVal r).map (fun n => -(n : Int))
    | '+' :: r => (digitsVal r).map (fun n => (n : Int))
    | r => (digitsVal r).map (fun n => (n : Int))
  | _ => none

/-- `%06d` for a natural number: decimal digits left-padded with zeros to
at least width six. -/
def padSixNat (n : Nat) : String :=
  let s := toString n
  if s.length < 6 then String.mk (List.replicate (6 - s.length) '0' ++ s.data)
  else s

/-- `fmt.Sprintf("%06d", i)`.  `GetNextID` only ever formats `maxNum + 1`
with `maxNum ≥ 0`, so the negative branch is unreachable there (Go would
count the sign inside the width; immaterial for this code base). -/
def padSix (i : Int) : String :=
  if i < 0 then "-" ++ padSixNat i.natAbs else padSixNat i.toNat

/-- The accumulation loop of models.Index.GetNextID (current revision:
the scan result is accepted only when `n = 1`). -/
def maxNumFold : List IndexEntry → Int → Int
  | [], m => m
  | e :: rest, m =>
    match parseKNum e.id with
    | some num => maxNumFold rest (if num > m then num else m)
    | none => maxNumFold rest m

/-- models.Index.GetNextID. -/
def getNextID (idx : Index) : String :=
  if idx.atoms.isEmpty then "K-000001"
  else "K-" ++ padSix (maxNumFold idx.atoms 0 + 1)

/-- tools.normalizeTokens: drop empty tokens, lower-case the rest. -/
def normalizeTokens (tokens : List String) : List String :=
  (tokens.filter (fun t => decide (t ≠ ""))).map lowerStr

/-- Per-token contribution inside tools.SearchEngine.calculateScore: +100
for a title substring hit, +50 more for a title-start hit, +30 once when
any tag contains the token. -/
def tokenScore (titleLower : String) (tags : List String) (token : String) : Nat :=
  (if strContainsSub titleLower token then
    100 + (if strHasPref titleLower token then 50 else 0)
  else 0)
  + (if tags.any (fun tag => strContainsSub (lowerStr tag) token) then 30 else 0)

/-- tools.SearchEngine.calculateScore. -/
def calculateScore (entry : IndexEntry) (queryTokens : List String) : Nat :=
  if queryTokens.isEmpty then
    10 + statusPriority entry.status * 5 + confidencePriority entry.confidence * 3
  else
    let titleLower := lowerStr entry.title
    let matchScore := (queryTokens.map (tokenScore titleLower entry.tags)).foldr (· + ·) 0
    if matchScore = 0 then 0
    else matchScore + statusPriority entry.status * 5 + confidencePriority entry.confidence * 3

/-- The shared filter block of tools.SearchEngine.Search and
SearchContent: type in the allowed set (if any), exact status, exact
language, and at least one query tag among the entry tags after
lower-casing both sides. -/
def searchFilterOk (types tags : List String) (language status : Option String)
    (e : IndexEntry) : Bool :=
  (types.isEmpty || types.any (fun t => decide (e.type = t)))
  && (match status with
      | none => true
      | some s => decide (e.status = s))
  && (match language with
      | none => true
      | some l =>
        match e.language with
        | none => false
        | some el => decide (el = l))
  && (tags.isEmpty
      || tags.any (fun tag => e.tags.any (fun t => decide (lowerStr t = lowerStr tag))))

/-- The filter block of tools.AtomTools.ListAtoms.  The tag comparison is
byte-for-byte: the map called `entryTagsLower` is filled with the raw tag
strings, no `strings.ToLower` is applied on either side. -/
def listFilterOk (types tags : List String) (status language : Option String)
    (e : IndexEntry) : Bool :=
  (types.isEmpty || types.any (fun t => decide (e.type = t)))
  && (match status with
      | none => true
      | some s => decide (e.status = s))
  && (match language with
      | none => true
      | some l =>
        match e.language with
        | none => false
        | some el => decide (el = l))
  && (tags.isEmpty
      || tags.any (fun tag => e.tags.any (fun t => decide (t = tag))))

/-- The `scoredEntry` pairs accumulated by Search/SearchContent. -/
structure ScoredEntry where
  entry : IndexEntry
  score : Nat
deriving DecidableEq

/-- Score at a position (`results[k].score`; positions are always in
bounds along the loops, the default 0 is never reached there). -/
def scAt (l : List ScoredEntry) (k : Nat) : Nat :=
  ((l.get? k).map (fun r => r.score)).getD 0

/-- `results[i], results[j] = results[j], results[i]`. -/
def swapAt (l : List ScoredEntry) (i j : Nat) : List ScoredEntry :=
  match l.get? i, l.get? j with
  | some x, some y => (l.set i y).set j x
  | _, _ => l

/-- Inner loop of the Search sort, counted by the remaining trips
`gas = l.length - j` (the length is invariant, so this is exactly the
`for j := i + 1; j < len(results); j++` loop). -/
def sortPassAux : Nat → List ScoredEntry → Nat → Nat → List ScoredEntry
  | 0, l, _, _ => l
  | gas + 1, l, i, j =>
    sortPassAux gas (if scAt l j > scAt l i then swapAt l i j else l) i (j + 1)

/-- Inner loop from `j` to the end. -/
def sortPass (l : List ScoredEntry) (i j : Nat) : List ScoredEntry :=
  sortPassAux (l.length - j) l i j

/-- Outer loop of the Search sort, again fuelled by the remaining trip
count (`for i := 0; i < len(results); i++`). -/
def sortLoopAux : Nat → List ScoredEntry → Nat → List ScoredEntry
  | 0, l, _ => l
  | gas + 1, l, i => sortLoopAux gas (sortPass l i (i + 1)) (i + 1)

/-- The in-place swap sort of tools.SearchEngine.Search (identical code in
SearchContent): descending by score via pairwise compare-and-swap. -/
def sortScored (l : List ScoredEntry) : List ScoredEntry :=
  sortLoopAux l.length l 0

/-- tools.SearchResult. -/
structure SearchResult where
  id : String
  title : String
  type : String
  status : String
  confidence : String
  language : Option String
  tags : List String
  updatedAt : String
  score : Nat
  summary : String
deriving DecidableEq

/-- tools.SearchEngine.formatResult: project the entry, attach the score,
and enrich with the atom summary when the Repository load succeeds (the
zero value "" stays otherwise; the result is never dropped). -/
def formatResult (store : FileStore) (r : ScoredEntry) : SearchResult :=
  { id := r.entry.id
    title := r.entry.title
    type := r.entry.type
    status := r.entry.status
    confidence := r.entry.confidence
    language := r.entry.language
    tags := r.entry.tags
    updatedAt := r.entry.updatedAt
    score := r.score
    summary :=
      match loadAtom store r.entry.id with
      | some a => a.content.summary
      | none => "" }

/-- The combined state the tools operate on: atom files plus the (cached
and persisted) Catalog. -/
structure State where
  store : FileStore
  index : Index
deriving DecidableEq

/-- tools.SearchEngine.Search: filter, score, keep positive scores, swap
sort descending, truncate to `limit`, format. -/
def search (st : State) (query types tags : List String)
    (language status : Option String) (limit : Nat) : List SearchResult :=
  let queryTokens := normalizeTokens query
  let results := st.index.atoms.filterMap (fun e =>
    if searchFilterOk types tags language status e then
      let score := calculateScore e queryTokens
      if score > 0 then some (ScoredEntry.mk e score) else none
    else none)
  let sorted := sortScored results
  let limited := if sorted.length > limit then sorted.take limit else sorted
  limited.map (formatResult st.store)

/-- tools.ListAtomsResult. -/
structure ListAtomsResult where
  id : String
  title : String
  type : String
  status : String
  confidence : String
  language : Option String
  tags : List String
  updatedAt : String
deriving DecidableEq

/-- Projection used by ListAtoms. -/
def toListResult (e : IndexEntry) : ListAtomsResult :=
  { id := e.id, title := e.title, type := e.type, status := e.status
    confidence := e.confidence, language := e.language, tags := e.tags
    updatedAt := e.updatedAt }

/-- Walk of tools.AtomTools.ListAtoms: append each entry passing the
filters, breaking as soon as the result count reaches `limit`
(`count` is the current `len(results)`). -/
def listAtomsGo (types tags : List String) (status language : Option String)
    (limit : Nat) : List IndexEntry → Nat → List ListAtomsResult
  | [], _ => []
  | e :: rest, count =>
    if listFilterOk types tags status language e then
      if count + 1 ≥ limit then [toListResult e]
      else toListResult e :: listAtomsGo types tags status language limit rest (count + 1)
    else listAtomsGo types tags status language limit rest count

/-- tools.AtomTools.ListAtoms: same shape as Search but with no scoring
pass, truncation via the in-loop break. -/
def listAtoms (idx : Index) (types tags : List String)
    (status language : Option String) (limit : Nat) : List ListAtomsResult :=
  listAtomsGo types tags status language limit idx.atoms 0

/-- tools.UpsertInput.  Go nil slices and nil pointers are `none`. -/
structure UpsertInput where
  id : Option String
  title : String
  type : String
  status : String
  confidence : String
  summary : String
  details : String
  pitfalls : Option (List String)
  language : Option String
  tags : Option (List String)
  sources : Option (List Source)
  links : Option (List Link)
deriving DecidableEq

/-- The atom built on the create path of tools.UpsertHandler.Upsert:
nil list inputs default to empty collections, one seed update note. -/
def buildNewAtom (id : String) (inp : UpsertInput) (today : String) : Atom :=
  { id := id
    title := inp.title
    type := inp.type
    status := inp.status
    confidence := inp.confidence
    content :=
      { summary := inp.summary
        details := inp.details
        pitfalls := inp.pitfalls.getD []
        updateNotes := [{ date := today, note := "Initial creation" }] }
    language := inp.language
    createdAt := today
    updatedAt := today
    tags := inp.tags.getD []
    sources := inp.sources.getD []
    links := inp.links.getD []
    supersedes := []
    supersededBy := none }

/-- The atom built by tools.UpsertHandler.updateAtom: `createdAt` kept,
one "Updated" note appended, nil list inputs and an empty `details` fall
back to the stored values, `summary` taken verbatim from the input. -/
def buildUpdatedAtom (existing : Atom) (inp : UpsertInput) (today : String) : Atom :=
  { id := existing.id
    title := inp.title
    type := inp.type
    status := inp.status
    confidence := inp.confidence
    content :=
      { summary := inp.summary
        details := if inp.details = "" then existing.content.details else inp.details
        pitfalls := inp.pitfalls.getD existing.content.pitfalls
        updateNotes := existing.content.updateNotes ++ [{ date := today, note := "Updated" }] }
    language := inp.language
    createdAt := existing.createdAt
    updatedAt := today
    tags := inp.tags.getD existing.tags
    sources := inp.sources.getD existing.sources
    links := inp.links.getD existing.links
    supersedes := existing.supersedes
    supersededBy := existing.supersededBy }

/-- ID selection on the create path: the caller's non-empty ID, otherwise
the Catalog's next sequential ID. -/
def chosenNewId (inp : UpsertInput) (idx : Index) : String :=
  match inp.id with
  | some i => if i = "" then getNextID idx else i
  | none => getNextID idx

/-- Shared tail of both upsert paths: save the atom via the Repository,
then refresh the Catalog entry. -/
def writeAtomOp (st : State) (a : Atom) (now : String) : State × Except String Atom :=
  ({ store := saveAtom st.store a
     index := addOrUpdateEntry st.index (entryFromAtom a) now },
   Except.ok a)

/-- tools.UpsertHandler.Upsert.  Validation happens before any write; an
invalid enum returns the error with the state untouched.  A supplied
non-empty ID that loads an existing atom takes the update path, anything
else the create path. -/
def upsert (st : State) (inp : UpsertInput) (today now : String) :
    State × Except String Atom :=
  if ¬ isValidType inp.type then
    (st, Except.error ("invalid atom type: " ++ inp.type))
  else if ¬ isValidStatus inp.status then
    (st, Except.error ("invalid atom status: " ++ inp.status))
  else if ¬ isValidConfidence inp.confidence then
    (st, Except.error ("invalid confidence level: " ++ inp.confidence))
  else
    match inp.id with
    | some i =>
      if i = "" then writeAtomOp st (buildNewAtom (chosenNewId inp st.index) inp today) now
      else
        match loadAtom st.store i with
        | some existing => writeAtomOp st (buildUpdatedAtom existing inp today) now
        | none => writeAtomOp st (buildNewAtom (chosenNewId inp st.index) inp today) now
    | none => writeAtomOp st (buildNewAtom (chosenNewId inp st.index) inp today) now

/-- tools.AtomTools.DeleteAtom (deprecate): load, structured failure when
absent, else set status deprecated, bump updatedAt, re-save and refresh
the Catalog entry. -/
def deprecate (st : State) (id : String) (today now : String) : State × Bool :=
  match loadAtom st.store id with
  | none => (st, false)
  | some a =>
    let a2 := { a with status := "deprecated", updatedAt := today }
    ({ store := saveAtom st.store a2
       index := addOrUpdateEntry st.index (entryFromAtom a2) now },
     true)

/-- tools.AtomTools.PurgeAtom: structured not-found failure when no
encoding exists, else delete all stored encodings and remove the Catalog
entry. -/
def purge (st : State) (id : String) (now : String) : State × Bool :=
  if existsAtom st.store id then
    ({ store := (deleteAtomFiles st.store id).1
       index := (removeEntry st.index id now).1 },
     true)
  else (st, false)

/-- Is the ID visible to the directory scans (file name carries the `K-`
prefix and a recognized extension)? -/
def dirVisible (st : FileStore) (id : String) : Bool :=
  (st.yaml.any (fun p => decide (p.1 = id)) && strHasPref (id ++ ".yaml") "K-")
  || (st.json.any (fun p => decide (p.1 = id)) && strHasPref (id ++ ".json") "K-")

/-- The per-ID loop of storage.IndexManager.RebuildFromAtoms: load each
atom, skip load failures, index the rest.  Go iterates the deduplicated
`idSet` map in unspecified order; the order is the `order` argument. -/
def rebuildFold (st : FileStore) (now : String) : List String → Index → Index
  | [], idx => idx
  | k :: rest, idx =>
    match loadAtom st k with
    | some a => rebuildFold st now rest (addOrUpdateEntry idx (entryFromAtom a) now)
    | none => rebuildFold st now rest idx

/-- storage.IndexManager.RebuildFromAtoms: discard the Catalog, rescan the
atoms directory (an enumeration `order` of the deduplicated IDs), and
rebuild one entry per loadable atom. -/
def rebuildFromAtoms (st : FileStore) (order : List String) (now : String) : Index :=
  rebuildFold st now order { version := 1, updatedAt := now, atoms := [] }

/-- A well-formed store: every atom file decodes to an atom carrying the
ID it is filed under (every write path stores `atom` at `atom.ID`). -/
def StoreWF (st : FileStore) : Prop :=
  ∀ id a, loadAtom st id = some a → a.id = id

/-- Digit-run value used by the spec-side readings of the ID pattern. -/
def allDigitsVal (l : List Char) : Option Nat :=
  if l.isEmpty then none
  else if l.all Char.isDigit then
    some (l.foldl (fun acc c => acc * 10 + (c.toNat - 48)) 0)
  else none

/-- The claim's reading of next-ID allocation: only IDs matching the full
`K-<digits>` pattern contribute; every other entry is ignored. -/
def getNextIdClaimed (idx : Index) : String :=
  if idx.atoms.isEmpty then "K-000001"
  else
    "K-" ++ padSix
      (((idx.atoms.filterMap (fun e =>
          match e.id.data with
          | 'K' :: '-' :: rest => allDigitsVal rest
          | _ => none)).map (fun n => (n : Int))).foldr max 0 + 1)

/-- The amended reading: every ID beginning with `K-` followed by a
parsable (optionally signed) integer contributes that integer, trailing
characters notwithstanding; other IDs are ignored; the result is the
maximum (at least 0) plus one, zero-padded to at least six digits. -/
def getNextIdAmended (idx : Index) : String :=
  if idx.atoms.isEmpty then "K-000001"
  else "K-" ++ padSix ((idx.atoms.filterMap (fun e => parseKNum e.id)).foldr max 0 + 1)

/-- An entry with the shape used throughout the spec examples. -/
def atomA : Atom :=
  { id := "K-000001", title := "Error Handling Pattern", type := "pattern"
    status := "active", confidence := "high"
    content :=
      { summary := "s", details := "d", pitfalls := []
        updateNotes := [{ date := "2026-01-01", note := "Initial creation" }] }
    language := none, createdAt := "2026-01-01", updatedAt := "2026-01-01"
    tags := ["error-handling", "async"], sources := [], links := []
    supersedes := [], supersededBy := none }

/-- A one-atom state: the atom file in canonical encoding plus its
catalog entry. -/
def stA : State :=
  { store := { yaml := [("K-000001", atomA)], json := [] }
    index := { version := 1, updatedAt := "t0", atoms := [entryFromAtom atomA] } }

/-- Minimal entry constructor for concrete catalogs. -/
def mkE (id status confidence : String) : IndexEntry :=
  { id := id, title := "t", type := "fact", status := status
    confidence := confidence, language := none, tags := []
    path := "", updatedAt := "" }

/-- Four-entry catalog: two equal browse-mode scores (31, 31) with a lower
(29) and a higher (34) score around them. -/
def idx4 : Index :=
  { version := 1, updatedAt := "t0"
    atoms := [mkE "K-000001" "active" "medium", mkE "K-000002" "active" "medium",
              mkE "K-000003" "draft" "high", mkE "K-000004" "active" "high"] }

/-- State wrapping `idx4` with an empty store. -/
def st4 : State := { store := { yaml := [], json := [] }, index := idx4 }

/-- Catalog holding a conforming ID and an ID with trailing junk after
its digits. -/
def idx6 : Index :=
  { version := 1, updatedAt := "t0"
    atoms := [mkE "K-000001" "active" "high", mkE "K-12abc" "active" "high"] }

/-- Empty catalog. -/
def idxEmpty : Index := { version := 1, updatedAt := "t0", atoms := [] }

/-- Catalog with IDs K-000001 and K-000003. -/
def idx13 : Index :=
  { version := 1, updatedAt := "t0"
    atoms := [mkE "K-000001" "active" "high", mkE "K-000003" "active" "high"] }

/-- Catalog with one entry carrying the mixed-case tag "Async". -/
def idx7 : Index :=
  { version := 1, updatedAt := "t0"
    atoms := [{ id := "K-000001", title := "t", type := "fact", status := "active"
                confidence := "high", language := none, tags := ["Async"]
                path := "", updatedAt := "" }] }

/-- State wrapping `idx7` with an empty store. -/
def st7 : State := { store := { yaml := [], json := [] }, index := idx7 }

/-- Empty state. -/
def st0 : State :=
  { store := { yaml := [], json := [] }
    index := { version := 1, updatedAt := "t0", atoms := [] } }

/-- A valid create input with no caller-supplied ID. -/
def inpCreate : UpsertInput :=
  { id := none, title := "T", type := "fact", status := "active", confidence := "high"
    summary := "s", details := "", pitfalls := none, language := none
    tags := none, sources := none, links := none }

/-- A valid update input addressing `atomA` with every optional field
omitted and an empty summary. -/
def inpUpdate : UpsertInput :=
  { id := some "K-000001", title := "T2", type := "fact", status := "draft"
    confidence := "low", summary := "", details := "", pitfalls := none
    language := none, tags := none, sources := none, links := none }

/-- An input whose type is outside the closed enum. -/
def inpBad : UpsertInput :=
  { id := none, title := "T", type := "bogus", status := "active", confidence := "high"
    summary := "s", details := "", pitfalls := none, language := none
    tags := none, sources := none, links := none }

theorem get?_set_self {α : Type} (l : List α) (i : Nat) (a : α) (h : i < l.length) :
    (l.set i a).get? i = some a := by
  induction l generalizing i with
  | nil => simp at h
  | cons x t ih =>
    cases i with
    | zero => simp
    | succ n => simpa using ih n (by simpa using h)

theorem get?_set_other {α : Type} (l : List α) (i k : Nat) (a : α) (h : ¬ i = k) :
    (l.set i a).get? k = l.get? k := by
  induction l generalizing i k with
  | nil => simp
  | cons x t ih =>
    cases i with
    | zero =>
      cases k with
      | zero => exact absurd rfl h
      | succ m => simp
    | succ n =>
      cases k with
      | zero => simp
      | succ m => simpa using ih n m (fun e => h (by rw [e]))

theorem swapAt_length (l : List ScoredEntry) (i j : Nat) :
    (swapAt l i j).length = l.length := by
  unfold swapAt
  cases hgi : l.get? i <;> cases hgj : l.get? j <;> simp

theorem swapAt_get? (l : List ScoredEntry) (i j k : Nat)
    (hi : i < l.length) (hj : j < l.length) :
    (swapAt l i j).get? k =
      if k = j then l.get? i else if k = i then l.get? j else l.get? k := by
  have hgi : l.get? i = some (l.get ⟨i, hi⟩) := List.get?_eq_get hi
  have hgj : l.get? j = some (l.get ⟨j, hj⟩) := List.get?_eq_get hj
  unfold swapAt
  rw [hgi, hgj]
  by_cases hkj : k = j
  · subst hkj
    rw [if_pos rfl, get?_set_self _ _ _ (by simpa using hj)]
  · rw [if_neg hkj, get?_set_other _ _ _ _ (fun e => hkj e.symm)]
    by_cases hki : k = i
    · subst hki
      rw [if_pos rfl, get?_set_self _ _ _ hi]
    · rw [if_neg hki, get?_set_other _ _ _ _ (fun e => hki e.symm)]

theorem scAt_congr (l m : List ScoredEntry) (k : Nat) (h : l.get? k = m.get? k) :
    scAt l k = scAt m k := by
  unfold scAt
  rw [h]

theorem scAt_swapAt (l : List ScoredEntry) (i j k : Nat)
    (hi : i < l.length) (hj : j < l.length) :
    scAt (swapAt l i j) k =
      if k = j then scAt l i else if k = i then scAt l j else scAt l k := by
  unfold scAt
  rw [swapAt_get? l i j k hi hj]
  by_cases hkj : k = j
  · rw [if_pos hkj, if_pos hkj]
  · rw [if_neg hkj, if_neg hkj]
    by_cases hki : k = i
    · rw [if_pos hki, if_pos hki]
    · rw [if_neg hki, if_neg hki]

theorem scAt_of_length_le (l : List ScoredEntry) (k : Nat) (h : l.length ≤ k) :
    scAt l k = 0 := by
  unfold scAt
  rw [List.get?_eq_none.mpr h]
  rfl

theorem sortPassAux_spec :
    ∀ gas l i j, j + gas = l.length → i < j →
      (∀ k, i < k → k < j → scAt l k ≤ scAt l i) →
      ((sortPassAux gas l i j).length = l.length)
      ∧ (∀ k, k < i → (sortPassAux gas l i j).get? k = l.get? k)
      ∧ (∀ k, i ≤ k → ∃ m, i ≤ m ∧ scAt (sortPassAux gas l i j) k = scAt l m)
      ∧ (∀ k, i < k → scAt (sortPassAux gas l i j) k ≤ scAt (sortPassAux gas l i j) i) := by
  intro gas
  induction gas with
  | zero =>
    intro l i j hlen hij pre
    refine ⟨rfl, fun k _ => rfl, fun k hk => ⟨k, hk, rfl⟩, ?_⟩
    intro k hk
    show scAt l k ≤ scAt l i
    by_cases hkl : k < l.length
    · exact pre k hk (by omega)
    · rw [scAt_of_length_le l k (by omega)]
      exact Nat.zero_le _
  | succ gas ih =>
    intro l i j hlen hij pre
    have hjl : j < l.length := by omega
    have hil : i < l.length := by omega
    have hne : ¬ i = j := by omega
    have hunf : sortPassAux (gas + 1) l i j
        = sortPassAux gas (if scAt l j > scAt l i then swapAt l i j else l) i (j + 1) := rfl
    by_cases hsw : scAt l j > scAt l i
    · -- swap step
      have hif : (if scAt l j > scAt l i then swapAt l i j else l) = swapAt l i j :=
        if_pos hsw
      have h2i : scAt (swapAt l i j) i = scAt l j := by
        rw [scAt_swapAt l i j i hil hjl, if_neg hne, if_pos rfl]
      have h2j : scAt (swapAt l i j) j = scAt l i := by
        rw [scAt_swapAt l i j j hil hjl, if_pos rfl]
      have h2o : ∀ k, ¬ k = j → ¬ k = i → scAt (swapAt l i j) k = scAt l k := by
        intro k h1 h2
        rw [scAt_swapAt l i j k hil hjl, if_neg h1, if_neg h2]
      have pre2 : ∀ k, i < k → k < j + 1 → scAt (swapAt l i j) k ≤ scAt (swapAt l i j) i := by
        intro k hk1 hk2
        rw [h2i]
        by_cases hkj : k = j
        · rw [hkj, h2j]
          exact Nat.le_of_lt hsw
        · rw [h2o k hkj (by omega)]
          exact Nat.le_trans (pre k hk1 (by omega)) (Nat.le_of_lt hsw)
      have hlen2 : (j + 1) + gas = (swapAt l i j).length := by
        rw [swapAt_length]; omega
      obtain ⟨hL, hPfx, hReloc, hDom⟩ := ih (swapAt l i j) i (j + 1) hlen2 (by omega) pre2
      rw [hunf, hif]
      refine ⟨by rw [hL, swapAt_length], ?_, ?_, hDom⟩
      · intro k hk
        rw [hPfx k hk, swapAt_get? l i j k hil hjl, if_neg (by omega), if_neg (by omega)]
      · intro k hk
        obtain ⟨m, hm, hv⟩ := hReloc k hk
        by_cases hmj : m = j
        · exact ⟨i, Nat.le_refl i, by rw [hv, hmj, h2j]⟩
        · by_cases hmi : m = i
          · exact ⟨j, by omega, by rw [hv, hmi, h2i]⟩
          · exact ⟨m, hm, by rw [hv, h2o m hmj hmi]⟩
    · -- no swap
      have hif : (if scAt l j > scAt l i then swapAt l i j else l) = l := if_neg hsw
      have pre2 : ∀ k, i < k → k < j + 1 → scAt l k ≤ scAt l i := by
        intro k hk1 hk2
        by_cases hkj : k = j
        · rw [hkj]; omega
        · exact pre k hk1 (by omega)
      obtain ⟨hL, hPfx, hReloc, hDom⟩ := ih l i (j + 1) (by omega) (by omega) pre2
      rw [hunf, hif]
      exact ⟨hL, hPfx, hReloc, hDom⟩

theorem sortLoopAux_spec :
    ∀ gas l i, i + gas = l.length →
      (∀ p q, p < i → p ≤ q → scAt l q ≤ scAt l p) →
      ((sortLoopAux gas l i).length = l.length)
      ∧ (∀ p q, p ≤ q → scAt (sortLoopAux gas l i) q ≤ scAt (sortLoopAux gas l i) p) := by
  intro gas
  induction gas with
  | zero =>
    intro l i hlen sorted
    refine ⟨rfl, ?_⟩
    intro p q hpq
    show scAt l q ≤ scAt l p
    by_cases hp : p < l.length
    · exact sorted p q (by omega) hpq
    · rw [scAt_of_length_le l p (by omega), scAt_of_length_le l q (by omega)]
  | succ gas ih =>
    intro l i hlen sorted
    have hil : i < l.length := by omega
    have hunf : sortLoopAux (gas + 1) l i = sortLoopAux gas (sortPass l i (i + 1)) (i + 1) := rfl
    have hpass : (i + 1) + (l.length - (i + 1)) = l.length := by omega
    obtain ⟨hL, hPfx, hReloc, hDom⟩ :=
      sortPassAux_spec (l.length - (i + 1)) l i (i + 1) (by omega) (by omega)
        (fun k hk1 hk2 => by omega)
    have hL' : (sortPass l i (i + 1)).length = l.length := hL
    have hPfx' : ∀ k, k < i → (sortPass l i (i + 1)).get? k = l.get? k := hPfx
    have hReloc' : ∀ k, i ≤ k → ∃ m, i ≤ m ∧ scAt (sortPass l i (i + 1)) k = scAt l m := hReloc
    have hDom' : ∀ k, i < k →
        scAt (sortPass l i (i + 1)) k ≤ scAt (sortPass l i (i + 1)) i := hDom
    have sorted2 : ∀ p q, p < i + 1 → p ≤ q →
        scAt (sortPass l i (i + 1)) q ≤ scAt (sortPass l i (i + 1)) p := by
      intro p q hp hpq
      by_cases hpi : p < i
      · have hvp : scAt (sortPass l i (i + 1)) p = scAt l p :=
          scAt_congr _ _ p (hPfx' p hpi)
        rw [hvp]
        by_cases hqi : q < i
        · have hvq : scAt (sortPass l i (i + 1)) q = scAt l q :=
            scAt_congr _ _ q (hPfx' q hqi)
          rw [hvq]
          exact sorted p q hpi hpq
        · obtain ⟨m, hm, hv⟩ := hReloc' q (by omega)
          rw [hv]
          exact sorted p m hpi (by omega)
      · have hpi2 : p = i := by omega
        subst hpi2
        by_cases hqp : q = p
        · rw [hqp]
        · exact hDom' q (by omega)
    obtain ⟨hL2, hSorted⟩ := ih (sortPass l i (i + 1)) (i + 1) (by omega) sorted2
    rw [hunf]
    exact ⟨by rw [hL2, hL'], hSorted⟩

theorem sortScored_scAt_sorted (l : List ScoredEntry) :
    ∀ p q, p ≤ q → scAt (sortScored l) q ≤ scAt (sortScored l) p := by
  have h := sortLoopAux_spec l.length l 0 (by omega) (fun p q hp _ => by omega)
  exact h.2

theorem sortScored_length (l : List ScoredEntry) :
    (sortScored l).length = l.length := by
  have h := sortLoopAux_spec l.length l 0 (by omega) (fun p q hp _ => by omega)
  exact h.1

theorem scAt_eq_get (s : List ScoredEntry) (k : Nat) (h : k < s.length) :
    scAt s k = (s.get ⟨k, h⟩).score := by
  unfold scAt
  rw [List.get?_eq_get h]
  rfl

theorem sorted_scores_of_scAt (s : List ScoredEntry)
    (h : ∀ p q, p ≤ q → scAt s q ≤ scAt s p) :
    List.Sorted (· ≥ ·) (s.map (fun r => r.score)) := by
  apply List.pairwise_iff_get.mpr
  intro a b hab
  have ha : (a : Nat) < s.length := by
    have := a.isLt
    simpa using this
  have hb : (b : Nat) < s.length := by
    have := b.isLt
    simpa using this
  rw [List.get_map, List.get_map]
  have := h a b (Nat.le_of_lt hab)
  rw [scAt_eq_get s a ha, scAt_eq_get s b hb] at this
  exact this

/-- Claim C2 (amended): the search ranking is deterministic (a pure
function of the snapshot) and the returned results are sorted in
non-increasing score order, but the swap-based selection sort is not
stable: two surviving entries with equal scores can leave in the
opposite of their snapshot order (see the counterexample). -/
theorem c2_search_sorted_descending (st : State) (query types tags : List String)
    (language status : Option String) (limit : Nat) :
    List.Sorted (· ≥ ·)
      ((search st query types tags language status limit).map (fun r => r.score)) := by
  unfold search
  dsimp only
  rw [List.map_map]
  have hcomp : ((fun (r : SearchResult) => r.score) ∘ formatResult st.store)
      = fun (r : ScoredEntry) => r.score := rfl
  rw [hcomp]
  set R := st.index.atoms.filterMap (fun e =>
    if searchFilterOk types tags language status e then
      let score := calculateScore e (normalizeTokens query)
      if score > 0 then some (ScoredEntry.mk e score) else none
    else none) with hR
  by_cases hc : (sortScored R).length > limit
  · rw [if_pos hc, List.map_take]
    exact List.Pairwise.sublist (List.take_sublist _ _)
      (sorted_scores_of_scAt _ (sortScored_scAt_sorted _))
  · rw [if_neg hc]
    exact sorted_scores_of_scAt _ (sortScored_scAt_sorted _)

theorem replaceFirst_eq_none (e : IndexEntry) :
    ∀ l : List IndexEntry, (∀ x ∈ l, ¬ x.id = e.id) → replaceFirst e l = none := by
  intro l
  induction l with
  | nil => intro _; rfl
  | cons x rest ih =>
    intro h
    unfold replaceFirst
    rw [if_neg (h x (List.mem_cons_self x rest))]
    rw [ih (fun y hy => h y (List.mem_cons_of_mem x hy))]
    rfl

theorem filter_eq_nil_of_ids (e : IndexEntry) :
    ∀ l : List IndexEntry, (∀ x ∈ l, ¬ x.id = e.id) →
      l.filter (fun x => decide (x.id = e.id)) = [] := by
  intro l h
  apply List.filter_eq_nil.mpr
  intro x hx
  simpa using h x hx

theorem replaceFirst_some_filter (e : IndexEntry) :
    ∀ (l : List IndexEntry) (m : List IndexEntry),
      (l.map (fun x => x.id)).Nodup → replaceFirst e l = some m →
      m.filter (fun x => decide (x.id = e.id)) = [e] := by
  intro l
  induction l with
  | nil => intro m _ h; simp [replaceFirst] at h
  | cons x rest ih =>
    intro m hnd h
    rw [List.map_cons, List.nodup_cons] at hnd
    unfold replaceFirst at h
    by_cases hx : x.id = e.id
    · rw [if_pos hx] at h
      have hm : m = e :: rest := by
        injection h with h2
        exact h2.symm
      subst hm
      rw [List.filter_cons]
      have hrest : rest.filter (fun y => decide (y.id = e.id)) = [] := by
        apply filter_eq_nil_of_ids
        intro y hy hye
        exact hnd.1 (by
          rw [hx, ← hye]
          exact List.mem_map_of_mem (fun z => z.id) hy)
      simp [hrest]
    · rw [if_neg hx] at h
      cases hrep : replaceFirst e rest with
      | none => rw [hrep] at h; simp at h
      | some m2 =>
        rw [hrep] at h
        have hm : m = x :: m2 := by
          simp at h
          exact h.symm
        subst hm
        rw [List.filter_cons, if_neg (by simpa using hx)]
        exact ih m2 hnd.2 hrep

theorem eq_none_replaceFirst (e : IndexEntry) :
    ∀ l : List IndexEntry, replaceFirst e l = none → ∀ x ∈ l, ¬ x.id = e.id := by
  intro l
  induction l with
  | nil => intro _ x hx; cases hx
  | cons y rest ih =>
    intro h x hx
    unfold replaceFirst at h
    by_cases hy : y.id = e.id
    · rw [if_pos hy] at h; cases h
    · rw [if_neg hy] at h
      have hrest : replaceFirst e rest = none := by
        cases hrep : replaceFirst e rest with
        | none => rfl
        | some m => rw [hrep] at h; simp at h
      cases hx with
      | head => exact hy
      | tail _ hmem => exact ih hrest x hmem

theorem addOrUpdate_filter (idx : Index) (e : IndexEntry) (now : String)
    (hnd : (idx.atoms.map (fun x => x.id)).Nodup) :
    (addOrUpdateEntry idx e now).atoms.filter (fun x => decide (x.id = e.id)) = [e] := by
  unfold addOrUpdateEntry
  cases hrep : replaceFirst e idx.atoms with
  | some m =>
    exact replaceFirst_some_filter e idx.atoms m hnd hrep
  | none =>
    simp only
    rw [List.filter_append]
    have hall : ∀ x ∈ idx.atoms, ¬ x.id = e.id :=
      eq_none_replaceFirst e idx.atoms hrep
    rw [filter_eq_nil_of_ids e idx.atoms hall]
    simp

theorem lookupKey_eraseKey (k : String) :
    ∀ l : List (String × Atom), lookupKey (eraseKey l k) k = none := by
  intro l
  induction l with
  | nil => rfl
  | cons p t ih =>
    show lookupKey (List.filter _ (p :: t)) k = none
    rw [List.filter_cons]
    by_cases hp : p.1 = k
    · rw [if_neg (by simpa using hp)]
      exact ih
    · rw [if_pos (by simpa using hp)]
      unfold lookupKey
      rw [List.find?_cons_of_neg _ (by simpa using hp)]
      exact ih

theorem eq_none_removeFirst (id : String) :
    ∀ l : List IndexEntry, removeFirst id l = none → ∀ x ∈ l, ¬ x.id = id := by
  intro l
  induction l with
  | nil => intro _ x hx; cases hx
  | cons y rest ih =>
    intro h x hx
    unfold removeFirst at h
    by_cases hy : y.id = id
    · rw [if_pos hy] at h; cases h
    · rw [if_neg hy] at h
      have hrest : removeFirst id rest = none := by
        cases hrep : removeFirst id rest with
        | none => rfl
        | some m => rw [hrep] at h; simp at h
      cases hx with
      | head => exact hy
      | tail _ hmem => exact ih hrest x hmem

theorem removeFirst_some_find (id : String) :
    ∀ (l m : List IndexEntry), (l.map (fun x => x.id)).Nodup →
      removeFirst id l = some m →
      m.find? (fun e => decide (e.id = id)) = none := by
  intro l
  induction l with
  | nil => intro m _ h; simp [removeFirst] at h
  | cons x rest ih =>
    intro m hnd h
    rw [List.map_cons, List.nodup_cons] at hnd
    unfold removeFirst at h
    by_cases hx : x.id = id
    · rw [if_pos hx] at h
      have hm : m = rest := by
        injection h with h2
        exact h2.symm
      subst hm
      apply List.find?_eq_none.mpr
      intro y hy
      simp only [decide_eq_true_eq]
      intro hye
      exact hnd.1 (by
        rw [hx, ← hye]
        exact List.mem_map_of_mem (fun z => z.id) hy)
    · rw [if_neg hx] at h
      cases hrep : removeFirst id rest with
      | none => rw [hrep] at h; simp at h
      | some m2 =>
        rw [hrep] at h
        have hm : m = x :: m2 := by
          simp at h
          exact h.symm
        subst hm
        rw [List.find?_cons_of_neg _ (by simpa using hx)]
        exact ih m2 hnd.2 hrep

theorem removeEntry_find (idx : Index) (id now : String)
    (hnd : (idx.atoms.map (fun x => x.id)).Nodup) :
    ((removeEntry idx id now).1.atoms).find? (fun e => decide (e.id = id)) = none := by
  unfold removeEntry
  cases hrep : removeFirst id idx.atoms with
  | some m =>
    exact removeFirst_some_find id idx.atoms m hnd hrep
  | none =>
    simp only
    apply List.find?_eq_none.mpr
    intro y hy
    simpa using eq_none_removeFirst id idx.atoms hrep y hy

theorem if_gt_eq_max (m n : Int) : (if n > m then n else m) = max m n := by
  rcases le_or_lt n m with h | h
  · rw [if_neg (not_lt.mpr h), max_eq_left h]
  · rw [if_pos h, max_eq_right (le_of_lt h)]

theorem maxNumFold_eq_foldl :
    ∀ (l : List IndexEntry) (m : Int),
      maxNumFold l m = (l.filterMap (fun e => parseKNum e.id)).foldl max m := by
  intro l
  induction l with
  | nil => intro m; rfl
  | cons e rest ih =>
    intro m
    unfold maxNumFold
    rw [List.filterMap_cons]
    cases hp : parseKNum e.id with
    | some n =>
      simp only
      rw [ih, List.foldl_cons, if_gt_eq_max]
    | none =>
      simp only
      exact ih m

theorem foldr_max_swap :
    ∀ (xs : List Int) (m x : Int), xs.foldr max (max m x) = max x (xs.foldr max m) := by
  intro xs
  induction xs with
  | nil => intro m x; exact max_comm m x
  | cons y ys ih =>
    intro m x
    rw [List.foldr_cons, List.foldr_cons, ih, max_left_comm]

theorem foldl_max_eq_foldr :
    ∀ (xs : List Int) (m : Int), xs.foldl max m = xs.foldr max m := by
  intro xs
  induction xs with
  | nil => intro m; rfl
  | cons x ys ih =>
    intro m
    rw [List.foldl_cons, List.foldr_cons, ih, foldr_max_swap]

theorem getNextID_eq_amended (idx : Index) : getNextID idx = getNextIdAmended idx := by
  unfold getNextID getNextIdAmended
  by_cases h : idx.atoms.isEmpty
  · rw [if_pos h, if_pos h]
  · rw [if_neg h, if_neg h, maxNumFold_eq_foldl, foldl_max_eq_foldr]

theorem rebuildFold_version (st : FileStore) (now : String) :
    ∀ (order : List String) (idx : Index),
      (rebuildFold st now order idx).version = idx.version := by
  intro order
  induction order with
  | nil => intro idx; rfl
  | cons k rest ih =>
    intro idx
    unfold rebuildFold
    cases hld : loadAtom st k with
    | none => exact ih idx
    | some a =>
      rw [ih]
      unfold addOrUpdateEntry
      cases replaceFirst (entryFromAtom a) idx.atoms <;> rfl

theorem rebuildFold_atoms (st : FileStore) (now : String) (hwf : StoreWF st) :
    ∀ (order : List String) (idx : Index),
      (∀ k ∈ order, ∀ e ∈ idx.atoms, ¬ e.id = k) →
      order.Nodup →
      (rebuildFold st now order idx).atoms
        = idx.atoms ++ order.filterMap (fun k => (loadAtom st k).map entryFromAtom) := by
  intro order
  induction order with
  | nil => intro idx _ _; simp [rebuildFold]
  | cons k rest ih =>
    intro idx hfresh hnd
    rw [List.nodup_cons] at hnd
    unfold rebuildFold
    rw [List.filterMap_cons]
    cases hld : loadAtom st k with
    | none =>
      simp only [Option.map_none']
      exact ih idx (fun q hq e he => hfresh q (List.mem_cons_of_mem k hq) e he) hnd.2
    | some a =>
      simp only [Option.map_some']
      have hida : a.id = k := hwf k a hld
      have hnone : replaceFirst (entryFromAtom a) idx.atoms = none := by
        apply replaceFirst_eq_none
        intro x hx
        show ¬ x.id = (entryFromAtom a).id
        have hea : (entryFromAtom a).id = a.id := rfl
        rw [hea, hida]
        exact hfresh k (List.mem_cons_self k rest) x hx
      have haou : (addOrUpdateEntry idx (entryFromAtom a) now).atoms
          = idx.atoms ++ [entryFromAtom a] := by
        unfold addOrUpdateEntry
        rw [hnone]
      rw [ih (addOrUpdateEntry idx (entryFromAtom a) now) ?_ hnd.2]
      · rw [haou, List.append_assoc]
        rfl
      · intro q hq e he
        rw [haou] at he
        rcases List.mem_append.mp he with hin | hin
        · exact hfresh q (List.mem_cons_of_mem k hq) e hin
        · have hee : e = entryFromAtom a := by simpa using hin
          rw [hee]
        
          show ¬ (entryFromAtom a).id = q
          have hea : (entryFromAtom a).id = a.id := rfl
          rw [hea, hida]
          intro hkq
          exact hnd.1 (hkq ▸ hq)

theorem writeAtomOp_snd (st : State) (a : Atom) (now : String) :
    (writeAtomOp st a now).2 = Except.ok a := rfl

theorem writeAtomOp_fst_index (st : State) (a : Atom) (now : String) :
    (writeAtomOp st a now).1.index = addOrUpdateEntry st.index (entryFromAtom a) now := rfl

theorem upsert_ok_index (st : State) (inp : UpsertInput) (today now : String) (a : Atom)
    (h : (upsert st inp today now).2 = Except.ok a) :
    (upsert st inp today now).1.index = addOrUpdateEntry st.index (entryFromAtom a) now := by
  unfold upsert at h ⊢
  by_cases h1 : isValidType inp.type = true
  · rw [if_neg (by simpa using h1)] at h ⊢
    by_cases h2 : isValidStatus inp.status = true
    · rw [if_neg (by simpa using h2)] at h ⊢
      by_cases h3 : isValidConfidence inp.confidence = true
      · rw [if_neg (by simpa using h3)] at h ⊢
        cases hid : inp.id with
        | none =>
          simp only [hid] at h ⊢
          rw [writeAtomOp_snd] at h
          rw [writeAtomOp_fst_index, Except.ok.inj h]
        | some i =>
          simp only [hid] at h ⊢
          by_cases hi : i = ""
          · rw [if_pos hi] at h ⊢
            rw [writeAtomOp_snd] at h
            rw [writeAtomOp_fst_index, Except.ok.inj h]
          · rw [if_neg hi] at h ⊢
            cases hld : loadAtom st.store i with
            | some existing =>
              simp only [hld] at h ⊢
              rw [writeAtomOp_snd] at h
              rw [writeAtomOp_fst_index, Except.ok.inj h]
            | none =>
              simp only [hld] at h ⊢
              rw [writeAtomOp_snd] at h
              rw [writeAtomOp_fst_index, Except.ok.inj h]
      · rw [if_pos (by simpa using h3)] at h
        simp at h
    · rw [if_pos (by simpa using h2)] at h
      simp at h
  · rw [if_pos (by simpa using h1)] at h
    simp at h

/-- Claim C1 (counterexample): on the entry titled "Error Handling
Pattern" with tags ["error-handling", "async"], status active and
confidence high, the match-mode score for the lower-cased tokens
["error", "handling"] is not 304: the token "handling" also matches the
tag "error-handling", which the spec's worked example failed to count. -/
theorem c1_counterexample :
    calculateScore (entryFromAtom atomA) ["error", "handling"] ≠ 304 := by decide

/-- Claim C1 (amended): the final score is 334 — "error" contributes
100 (title substring) + 50 (title start) + 30 (tag), "handling"
contributes 100 (title substring) + 30 (tag "error-handling" contains
it), match score 310, plus status weight 15 and confidence weight 9. -/
theorem c1_score_334 :
    calculateScore (entryFromAtom atomA) ["error", "handling"] = 334 := by decide

/-- Claim C2 (counterexample): in a browse-mode search over the catalog
[K-000001 (score 31), K-000002 (score 31), K-000003 (score 29),
K-000004 (score 34)], the two equal-score entries K-000001 and K-000002
come back in the order K-000002, K-000001 — the swap sort moved K-000001
to the back while hoisting K-000004, so equal scores do not retain their
snapshot order. -/
theorem c2_counterexample :
    ((search st4 [] [] [] none none 10).map (fun r => r.id)
        = ["K-000004", "K-000002", "K-000001", "K-000003"])
    ∧ calculateScore (mkE "K-000001" "active" "medium") []
        = calculateScore (mkE "K-000002" "active" "medium") []
    ∧ idx4.atoms.map (fun e => e.id)
        = ["K-000001", "K-000002", "K-000003", "K-000004"] := by decide

/-- Claim C3: after a successful Upsert (create or update) and after a
successful Deprecate, the catalog holds exactly one entry with the
written atom's ID, namely the projection of that atom, whose mutable
fields (title, type, status, confidence, language, tags, updatedAt)
equal the atom's. -/
theorem c3_catalog_exactly_one :
    (∀ (st : State) (inp : UpsertInput) (today now : String) (a : Atom),
      (st.index.atoms.map (fun x => x.id)).Nodup →
      (upsert st inp today now).2 = Except.ok a →
      (upsert st inp today now).1.index.atoms.filter (fun x => decide (x.id = a.id))
        = [entryFromAtom a])
    ∧ (∀ (st : State) (id today now : String) (a0 : Atom),
      (st.index.atoms.map (fun x => x.id)).Nodup →
      loadAtom st.store id = some a0 →
      (deprecate st id today now).1.index.atoms.filter
          (fun x => decide (x.id = ({ a0 with status := "deprecated", updatedAt := today } : Atom).id))
        = [entryFromAtom { a0 with status := "deprecated", updatedAt := today }])
    ∧ (∀ a : Atom, (entryFromAtom a).title = a.title ∧ (entryFromAtom a).type = a.type
        ∧ (entryFromAtom a).status = a.status ∧ (entryFromAtom a).confidence = a.confidence
        ∧ (entryFromAtom a).language = a.language ∧ (entryFromAtom a).tags = a.tags
        ∧ (entryFromAtom a).updatedAt = a.updatedAt) := by
  refine ⟨?_, ?_, ?_⟩
  · intro st inp today now a hnd hok
    rw [upsert_ok_index st inp today now a hok]
    exact addOrUpdate_filter st.index (entryFromAtom a) now hnd
  · intro st id today now a0 hnd hld
    unfold deprecate
    rw [hld]
    exact addOrUpdate_filter st.index
      (entryFromAtom { a0 with status := "deprecated", updatedAt := today }) now hnd
  · intro a
    exact ⟨rfl, rfl, rfl, rfl, rfl, rfl, rfl⟩

/-- Claim C3 witness: the create path on the empty state and the
deprecate path on the one-atom state, at concrete inputs. -/
theorem c3_witness :
    ((upsert st0 inpCreate "2026-01-01" "t1").1.index.atoms.filter
        (fun x => decide (x.id = (buildNewAtom "K-000001" inpCreate "2026-01-01").id))
      = [entryFromAtom (buildNewAtom "K-000001" inpCreate "2026-01-01")])
    ∧ ((deprecate stA "K-000001" "2026-02-02" "t2").1.index.atoms.filter
        (fun x => decide (x.id = ({ atomA with status := "deprecated", updatedAt := "2026-02-02" } : Atom).id))
      = [entryFromAtom { atomA with status := "deprecated", updatedAt := "2026-02-02" }]) :=
  ⟨c3_catalog_exactly_one.1 st0 inpCreate "2026-01-01" "t1"
      (buildNewAtom "K-000001" inpCreate "2026-01-01") (by decide) (by rfl),
   c3_catalog_exactly_one.2.1 stA "K-000001" "2026-02-02" "t2" atomA (by decide) (by rfl)⟩

/-- Claim C4: an upsert whose type, status or confidence lies outside its
closed enum returns a descriptive validation error and leaves the whole
state — atom files and catalog — untouched. -/
theorem c4_validation_no_persistence (st : State) (inp : UpsertInput) (today now : String)
    (h : ¬ (isValidType inp.type = true ∧ isValidStatus inp.status = true
        ∧ isValidConfidence inp.confidence = true)) :
    (upsert st inp today now).1 = st
    ∧ ∃ msg, (upsert st inp today now).2 = Except.error msg := by
  unfold upsert
  by_cases h1 : isValidType inp.type = true
  · by_cases h2 : isValidStatus inp.status = true
    · by_cases h3 : isValidConfidence inp.confidence = true
      · exact absurd ⟨h1, h2, h3⟩ h
      · rw [if_neg (by simpa using h1), if_neg (by simpa using h2),
          if_pos (by simpa using h3)]
        exact ⟨rfl, "invalid confidence level: " ++ inp.confidence, rfl⟩
    · rw [if_neg (by simpa using h1), if_pos (by simpa using h2)]
      exact ⟨rfl, "invalid atom status: " ++ inp.status, rfl⟩
  · rw [if_pos (by simpa using h1)]
    exact ⟨rfl, "invalid atom type: " ++ inp.type, rfl⟩

/-- Claim C4 witness: the input with type "bogus" on the empty state. -/
theorem c4_witness :
    (upsert st0 inpBad "2026-01-01" "t1").1 = st0
    ∧ ∃ msg, (upsert st0 inpBad "2026-01-01" "t1").2 = Except.error msg :=
  c4_validation_no_persistence st0 inpBad "2026-01-01" "t1" (by decide)

/-- Claim C5: an upsert addressing an existing atom builds the updated
atom with createdAt preserved, exactly one "Updated" note dated today
appended to the existing notes, the stored value kept for each omitted
optional field (nil pitfalls/tags/sources/links, empty details), and the
summary always overwritten verbatim, empty or not. -/
theorem c5_update_semantics (st : State) (inp : UpsertInput) (today now : String)
    (i : String) (ex : Atom)
    (h1 : isValidType inp.type = true) (h2 : isValidStatus inp.status = true)
    (h3 : isValidConfidence inp.confidence = true)
    (hid : inp.id = some i) (hi : ¬ i = "")
    (hld : loadAtom st.store i = some ex) :
    (upsert st inp today now).2 = Except.ok (buildUpdatedAtom ex inp today)
    ∧ (buildUpdatedAtom ex inp today).createdAt = ex.createdAt
    ∧ (buildUpdatedAtom ex inp today).content.updateNotes
        = ex.content.updateNotes ++ [{ date := today, note := "Updated" }]
    ∧ (inp.pitfalls = none →
        (buildUpdatedAtom ex inp today).content.pitfalls = ex.content.pitfalls)
    ∧ (inp.tags = none → (buildUpdatedAtom ex inp today).tags = ex.tags)
    ∧ (inp.sources = none → (buildUpdatedAtom ex inp today).sources = ex.sources)
    ∧ (inp.links = none → (buildUpdatedAtom ex inp today).links = ex.links)
    ∧ (inp.details = "" →
        (buildUpdatedAtom ex inp today).content.details = ex.content.details)
    ∧ (buildUpdatedAtom ex inp today).content.summary = inp.summary := by
  refine ⟨?_, rfl, rfl, ?_, ?_, ?_, ?_, ?_, rfl⟩
  · unfold upsert
    rw [if_neg (by simpa using h1), if_neg (by simpa using h2), if_neg (by simpa using h3)]
    simp only [hid]
    rw [if_neg hi]
    simp only [hld]
    rfl
  · intro hp; simp [buildUpdatedAtom, hp]
  · intro ht; simp [buildUpdatedAtom, ht]
  · intro hs; simp [buildUpdatedAtom, hs]
  · intro hl; simp [buildUpdatedAtom, hl]
  · intro hd; simp [buildUpdatedAtom, hd]

/-- Claim C5 witness: updating the one-atom state with every optional
field omitted and an empty summary. -/
theorem c5_witness :
    (upsert stA inpUpdate "2026-03-03" "t3").2
      = Except.ok (buildUpdatedAtom atomA inpUpdate "2026-03-03")
    ∧ (buildUpdatedAtom atomA inpUpdate "2026-03-03").createdAt = atomA.createdAt
    ∧ (buildUpdatedAtom atomA inpUpdate "2026-03-03").content.summary = inpUpdate.summary := by
  have h := c5_update_semantics stA inpUpdate "2026-03-03" "t3" "K-000001" atomA
    (by decide) (by decide) (by decide) rfl (by decide) (by rfl)
  exact ⟨h.1, h.2.1, h.2.2.2.2.2.2.2.2⟩

/-- Claim C6 (counterexample): the claim says IDs not matching the full
K-<digits> pattern are ignored, but on a catalog holding K-000001 and
K-12abc the code parses 12 out of "K-12abc" (Sscanf leaves the trailing
"abc" unconsumed) and answers K-000013, while the claimed rule would
ignore it and answer K-000002. -/
theorem c6_counterexample :
    getNextID idx6 = "K-000013" ∧ getNextIdClaimed idx6 = "K-000002" := by decide

/-- Claim C6 (amended): next-ID allocation returns K-000001 on an empty
catalog; otherwise every entry ID beginning with "K-" followed by a
parsable integer contributes that integer even when trailing characters
follow the digits, unparsable IDs are ignored, and the result is the
maximum (at least 0) plus one, zero-padded to at least six digits —
witnessed by the equivalence with the amended specification function and
by the spec's own examples. -/
theorem c6_next_id :
    (∀ idx, getNextID idx = getNextIdAmended idx)
    ∧ getNextID idxEmpty = "K-000001"
    ∧ getNextID idx13 = "K-000004" :=
  ⟨getNextID_eq_amended, by decide, by decide⟩

/-- Claim C7 (divergence at the failing input): an entry tagged "Async"
is returned by Search when filtering on tag "async" (both sides are
lower-cased), but ListAtoms with the same filter returns nothing — its
tag check is byte-for-byte despite the variable named entryTagsLower. -/
theorem c7_divergence :
    ((search st7 [] [] ["async"] none none 10).map (fun r => r.id) = ["K-000001"])
    ∧ listAtoms idx7 [] ["async"] none none 10 = [] := by decide

/-- Claim C8: purging an ID that exists in either encoding leaves no file
of any encoding behind and no catalog entry findable by that ID (the
catalog invariant of unique IDs is assumed). -/
theorem c8_purge_completeness (st : State) (id now : String)
    (hnd : (st.index.atoms.map (fun x => x.id)).Nodup)
    (hex : existsAtom st.store id = true) :
    existsAtom (purge st id now).1.store id = false
    ∧ findByID (purge st id now).1.index id = none := by
  unfold purge
  rw [if_pos hex]
  constructor
  · show existsAtom (deleteAtomFiles st.store id).1 id = false
    unfold deleteAtomFiles existsAtom
    simp only
    rw [lookupKey_eraseKey id st.store.yaml, lookupKey_eraseKey id st.store.json]
    rfl
  · show findByID (removeEntry st.index id now).1 id = none
    unfold findByID
    exact removeEntry_find st.index id now hnd

/-- Claim C8 witness: purging the single stored atom. -/
theorem c8_witness :
    existsAtom (purge stA "K-000001" "t9").1.store "K-000001" = false
    ∧ findByID (purge stA "K-000001" "t9").1.index "K-000001" = none :=
  c8_purge_completeness stA "K-000001" "t9" (by decide) (by decide)

/-- Claim C10: next-ID allocation is derived from the live catalog alone,
so IDs are reusable: creating an atom on the empty catalog allocates
K-000001, and after purging it the allocator hands out K-000001 again. -/
theorem c10_id_reuse :
    getNextID st0.index = "K-000001"
    ∧ ((upsert st0 inpCreate "2026-01-01" "t1").2.toOption.map (fun a => a.id))
        = some "K-000001"
    ∧ existsAtom (upsert st0 inpCreate "2026-01-01" "t1").1.store "K-000001" = true
    ∧ (purge (upsert st0 inpCreate "2026-01-01" "t1").1 "K-000001" "t2").2 = true
    ∧ getNextID ((purge (upsert st0 inpCreate "2026-01-01" "t1").1 "K-000001" "t2").1.index)
        = "K-000001" := by decide

/-- Claim C9: two rebuilds over the same atoms directory with no
intervening writes produce the same catalog — the same entries (up to
the unspecified Go map iteration order of the ID set) and the same
count, with the same version tag; only the updatedAt timestamps differ. -/
theorem c9_rebuild_idempotent (st : FileStore) (o1 o2 : List String) (n1 n2 : String)
    (hwf : StoreWF st) (hn1 : o1.Nodup) (hn2 : o2.Nodup)
    (hm1 : ∀ k, k ∈ o1 ↔ dirVisible st k = true)
    (hm2 : ∀ k, k ∈ o2 ↔ dirVisible st k = true) :
    (rebuildFromAtoms st o1 n1).atoms.Perm (rebuildFromAtoms st o2 n2).atoms
    ∧ (rebuildFromAtoms st o1 n1).atoms.length = (rebuildFromAtoms st o2 n2).atoms.length
    ∧ (rebuildFromAtoms st o1 n1).version = (rebuildFromAtoms st o2 n2).version := by
  have hperm : o1.Perm o2 :=
    (List.perm_ext_iff_of_nodup hn1 hn2).mpr (fun k => (hm1 k).trans ((hm2 k).symm))
  have e1 : (rebuildFromAtoms st o1 n1).atoms
      = o1.filterMap (fun k => (loadAtom st k).map entryFromAtom) := by
    unfold rebuildFromAtoms
    rw [rebuildFold_atoms st n1 hwf o1 _ (fun k _ e he => absurd he (List.not_mem_nil e)) hn1]
    rfl
  have e2 : (rebuildFromAtoms st o2 n2).atoms
      = o2.filterMap (fun k => (loadAtom st k).map entryFromAtom) := by
    unfold rebuildFromAtoms
    rw [rebuildFold_atoms st n2 hwf o2 _ (fun k _ e he => absurd he (List.not_mem_nil e)) hn2]
    rfl
  refine ⟨?_, ?_, ?_⟩
  · rw [e1, e2]
    exact hperm.filterMap _
  · rw [e1, e2]
    exact (hperm.filterMap _).length_eq
  · unfold rebuildFromAtoms
    rw [rebuildFold_version, rebuildFold_version]

/-- Claim C9 witness: rebuilding the one-atom store twice. -/
theorem c9_witness :
    (rebuildFromAtoms stA.store ["K-000001"] "n1").atoms.Perm
      (rebuildFromAtoms stA.store ["K-000001"] "n2").atoms
    ∧ (rebuildFromAtoms stA.store ["K-000001"] "n1").atoms.length
        = (rebuildFromAtoms stA.store ["K-000001"] "n2").atoms.length := by
  have hwf : StoreWF stA.store := by
    intro id a h
    by_cases hid : "K-000001" = id
    · have ha : a = atomA := by
        rw [← hid] at h
        have : loadAtom stA.store "K-000001" = some atomA := by rfl
        rw [this] at h
        exact (Option.some.inj h).symm
      rw [ha, ← hid]
      rfl
    · have : loadAtom stA.store id = none := by
        simp [loadAtom, lookupKey, stA, hid]
      rw [this] at h
      cases h
  have hm : ∀ k, k ∈ (["K-000001"] : List String) ↔ dirVisible stA.store k = true := by
    intro k
    constructor
    · intro hk
      have hkk : k = "K-000001" := by simpa using hk
      rw [hkk]
      decide
    · intro h
      have hkk : "K-000001" = k := by
        by_contra hne
        rw [show dirVisible stA.store k = false by simp [dirVisible, stA, hne]] at h
        cases h
      simp [← hkk]
  have h := c9_rebuild_idempotent stA.store ["K-000001"] ["K-000001"] "n1" "n2"
    hwf (by decide) (by decide) hm hm
  exact ⟨h.1, h.2.1⟩
